import Mathlib

/-!
# Verification of the cryfs block/tree storage core

Shallow embedding of the Rust sources:
- `data_leaf_node.rs` (leaf node parsing, resize, serialization)
- `growable_data.rs` (reserve-tracking byte buffers)
- `store.rs` (tree store create/load/remove)
- `outer.rs` (outer config serialization)
- `data_fixture.rs` (deterministic test data generation)
- `num.rs` (`NonZeroU64Ext::checked_add`)

Bytes are modelled as `Nat` (values `< 256` where it matters), byte buffers
as `List Nat`.
-/

namespace Cryfs

/-! ## Byte-level helpers (wire layout, spec §6) -/

/-- Byte of `l` at index `i`, `0` past the end (all reads in the theorems
are guarded by length hypotheses). -/
def byteAt (l : List Nat) (i : Nat) : Nat := l.getD i 0

/-- Big-endian u16 read at offset `off` (`format_version_header`). -/
def readU16BE (l : List Nat) (off : Nat) : Nat :=
  byteAt l off * 256 + byteAt l (off + 1)

/-- Little-endian u32 read at offset `off` (`size` / `num_children` field). -/
def readU32LE (l : List Nat) (off : Nat) : Nat :=
  byteAt l off + byteAt l (off + 1) * 256 + byteAt l (off + 2) * 65536 +
    byteAt l (off + 3) * 16777216

/-- Little-endian u32 encoding of `n` (4 bytes). -/
def u32le (n : Nat) : List Nat :=
  [n % 256, n / 256 % 256, n / 65536 % 256, n / 16777216 % 256]

/-- Overwrite `vals.length` bytes of `l` starting at offset `off`. -/
def listWriteAt (l : List Nat) (off : Nat) (vals : List Nat) : List Nat :=
  l.take off ++ vals ++ l.drop (off + vals.length)

/-- `slice[a..b].fill(0)`: zero the bytes of `l` at indices `[a, b)`. -/
def zeroRange (l : List Nat) (a b : Nat) : List Nat :=
  l.take a ++ List.replicate (b - a) 0 ++ l.drop b

/-! ## Node layout (`layout.rs` is not in the sources; modelled from the
spec §3/§6: header = 8 bytes, `max_bytes_per_leaf = block_size_bytes − 8`,
`block_size_bytes` must exceed the header size). -/

/-- `node::data::OFFSET` / `HEADER_SIZE`: the node header takes 8 bytes. -/
def HEADER_SIZE : Nat := 8

/-- `FORMAT_VERSION_HEADER`: the current on-disk format version, `0x0000`. -/
def FORMAT_VERSION_HEADER : Nat := 0

/-- Modelled from the spec: `NodeLayout` (layout.rs is missing from the
sources): single parameter `block_size_bytes`. -/
structure NodeLayout where
  block_size_bytes : Nat
deriving DecidableEq

/-- Modelled from the spec: `block_size_bytes` "must exceed header size". -/
def NodeLayout.wf (l : NodeLayout) : Prop := HEADER_SIZE < l.block_size_bytes

instance (l : NodeLayout) : Decidable l.wf := by unfold NodeLayout.wf; infer_instance

/-- `NodeLayout::max_bytes_per_leaf = block_size_bytes − HEADER_SIZE`. -/
def NodeLayout.max_bytes_per_leaf (l : NodeLayout) : Nat :=
  l.block_size_bytes - HEADER_SIZE

/-! ## DataLeafNode (`data_leaf_node.rs`)

A leaf node is its raw block contents (`block.data()`), a byte list whose
first 8 bytes are the header and whose remainder is the data region. -/

/-- `node::View::size().read()` on a raw block: little-endian u32 at offset 4. -/
def leafSizeField (block : List Nat) : Nat := readU32LE block 4

/-- `node::View::depth().read()`: byte at offset 3. -/
def depthField (block : List Nat) : Nat := byteAt block 3

/-- `node::View::data()`: the data region after the 8-byte header. -/
def dataRegion (block : List Nat) : List Nat := block.drop HEADER_SIZE

/-- `DataLeafNode::max_bytes_per_leaf`: computed from the block length
(`NodeLayout { block_size_bytes: block.data().len() }.max_bytes_per_leaf()`). -/
def leafMaxBytes (block : List Nat) : Nat := block.length - HEADER_SIZE

/-- `DataLeafNode::num_bytes`: reads the size field. -/
def leafNumBytes (block : List Nat) : Nat := leafSizeField block

/-- `DataLeafNode::data`: first `size` bytes of the data region. -/
def leafData (block : List Nat) : List Nat :=
  (dataRegion block).take (leafSizeField block)

/-- `DataLeafNode::resize(new_num_bytes)`: asserts
`new_num_bytes <= max_bytes_per_leaf` (`none` = assertion failure), zeroes
the data region in `[new_num_bytes, old_num_bytes)` when shrinking, then
writes the new size field. -/
def leafResize (block : List Nat) (new_num_bytes : Nat) : Option (List Nat) :=
  if new_num_bytes ≤ leafMaxBytes block then
    let old_num_bytes := leafSizeField block
    let newData :=
      if new_num_bytes < old_num_bytes then
        zeroRange (dataRegion block) new_num_bytes old_num_bytes
      else dataRegion block
    some (block.take 4 ++ u32le new_num_bytes ++ newData)
  else none

/-! ## Generic byte-list lemmas -/

theorem byteAt_append_left {l1 l2 : List Nat} {i : Nat} (h : i < l1.length) :
    byteAt (l1 ++ l2) i = byteAt l1 i := by
  simp [byteAt, List.getD, List.getElem?_append_left h]

theorem byteAt_append_right {l1 l2 : List Nat} {i : Nat} (h : l1.length ≤ i) :
    byteAt (l1 ++ l2) i = byteAt l2 (i - l1.length) := by
  simp [byteAt, List.getD, List.getElem?_append_right h]

theorem u32le_length (n : Nat) : (u32le n).length = 4 := rfl

theorem readU32LE_concat (pre : List Nat) (n : Nat) (rest : List Nat)
    (hpre : pre.length = 4) (hn : n < 4294967296) :
    readU32LE (pre ++ (u32le n ++ rest)) 4 = n := by
  have key : ∀ k, k < 4 →
      byteAt (pre ++ (u32le n ++ rest)) (4 + k) = byteAt (u32le n) k := by
    intro k hk
    rw [byteAt_append_right (by omega), hpre,
      byteAt_append_left (by rw [u32le_length]; omega)]
    congr 1
    omega
  have e0 := key 0 (by omega)
  have e1 := key 1 (by omega)
  have e2 := key 2 (by omega)
  have e3 := key 3 (by omega)
  norm_num at e0 e1 e2 e3
  unfold readU32LE
  rw [show (4 : Nat) + 1 = 5 from rfl, show (4 : Nat) + 2 = 6 from rfl,
    show (4 : Nat) + 3 = 7 from rfl] at *
  rw [e0, e1, e2, e3]
  show n % 256 + n / 256 % 256 * 256 + n / 65536 % 256 * 65536 +
    n / 16777216 % 256 * 16777216 = n
  omega

/-! ## C1: leaf resize -/

/-- **C1.** For every `DataLeafNode` (raw block of length ≥ header with
size field `old ≤ max_bytes_per_leaf`) and every `new_num_bytes`:
if `new_num_bytes ≤ max_bytes_per_leaf`, `resize` succeeds and afterwards
`num_bytes()` returns `new_num_bytes`, the first `min(old, new)` bytes of
the data region are unchanged, and when shrinking the bytes in
`[new, old)` are zero; if `new_num_bytes > max_bytes_per_leaf`, `resize`
fails its assertion. -/
theorem C1_leaf_resize (block : List Nat) (new_num_bytes : Nat)
    (hlen : HEADER_SIZE ≤ block.length)
    (hold : leafSizeField block ≤ leafMaxBytes block)
    (hnew32 : new_num_bytes < 4294967296) :
    (new_num_bytes ≤ leafMaxBytes block →
      ∃ block', leafResize block new_num_bytes = some block' ∧
        leafNumBytes block' = new_num_bytes ∧
        (dataRegion block').take (min (leafSizeField block) new_num_bytes) =
          (dataRegion block).take (min (leafSizeField block) new_num_bytes) ∧
        (new_num_bytes < leafSizeField block →
          ((dataRegion block').drop new_num_bytes).take
              (leafSizeField block - new_num_bytes) =
            List.replicate (leafSizeField block - new_num_bytes) 0)) ∧
    (leafMaxBytes block < new_num_bytes → leafResize block new_num_bytes = none) := by
  have hH : HEADER_SIZE = 8 := rfl
  have hmax : leafMaxBytes block = block.length - 8 := rfl
  constructor
  · intro hle
    have hle' : new_num_bytes ≤ block.length - 8 := hmax ▸ hle
    set old := leafSizeField block with hold_def
    have hold' : old ≤ block.length - 8 := hmax ▸ hold
    set dr := dataRegion block with hdr_def
    have hdrlen : dr.length = block.length - 8 := by
      simp [hdr_def, dataRegion, HEADER_SIZE]
    have htake4 : (block.take 4).length = 4 := by
      simp [List.length_take]; omega
    set newData := if new_num_bytes < old then zeroRange dr new_num_bytes old else dr
      with hnd_def
    have hreg : dataRegion (block.take 4 ++ u32le new_num_bytes ++ newData) = newData := by
      unfold dataRegion
      rw [List.append_assoc, ← List.append_assoc (block.take 4)]
      have hh : HEADER_SIZE = ((block.take 4) ++ u32le new_num_bytes).length := by
        simp [htake4, u32le_length, HEADER_SIZE]
      rw [hh, List.drop_left]
    refine ⟨block.take 4 ++ u32le new_num_bytes ++ newData, ?_, ?_, ?_, ?_⟩
    · simp only [leafResize, if_pos hle]
    · show readU32LE _ 4 = new_num_bytes
      rw [List.append_assoc]
      exact readU32LE_concat _ _ _ htake4 hnew32
    · rw [hreg, hnd_def]
      by_cases hlt : new_num_bytes < old
      · simp only [if_pos hlt]
        rw [min_eq_right hlt.le]
        unfold zeroRange
        have hnewle : new_num_bytes ≤ (dr.take new_num_bytes).length := by
          rw [List.length_take]
          omega
        have hnewle2 : new_num_bytes ≤
            (dr.take new_num_bytes ++ List.replicate (old - new_num_bytes) 0).length := by
          rw [List.length_append]
          omega
        rw [List.take_append_of_le_length hnewle2,
          List.take_append_of_le_length hnewle, List.take_take]
        simp
      · simp only [if_neg hlt]
    · intro hlt
      rw [hreg, hnd_def, if_pos hlt]
      unfold zeroRange
      have hlen1 : (dr.take new_num_bytes).length = new_num_bytes := by
        rw [List.length_take]
        omega
      rw [List.append_assoc, List.drop_left' hlen1]
      have hlen2 : old - new_num_bytes ≤
          (List.replicate (old - new_num_bytes) (0 : Nat)).length := by simp
      rw [List.take_append_of_le_length hlen2]
      simp
  · intro hgt
    simp only [leafResize, if_neg (not_le.mpr hgt)]

/-- Witness for C1 at a concrete leaf block (size field 3, shrinking to 1). -/
theorem C1_leaf_resize_witness :
    ∃ block', leafResize [0, 0, 0, 0, 3, 0, 0, 0, 10, 20, 30, 40] 1 = some block' ∧
      leafNumBytes block' = 1 ∧
      (dataRegion block').take
          (min (leafSizeField [0, 0, 0, 0, 3, 0, 0, 0, 10, 20, 30, 40]) 1) =
        (dataRegion [0, 0, 0, 0, 3, 0, 0, 0, 10, 20, 30, 40]).take
          (min (leafSizeField [0, 0, 0, 0, 3, 0, 0, 0, 10, 20, 30, 40]) 1) ∧
      (1 < leafSizeField [0, 0, 0, 0, 3, 0, 0, 0, 10, 20, 30, 40] →
        ((dataRegion block').drop 1).take
            (leafSizeField [0, 0, 0, 0, 3, 0, 0, 0, 10, 20, 30, 40] - 1) =
          List.replicate (leafSizeField [0, 0, 0, 0, 3, 0, 0, 0, 10, 20, 30, 40] - 1) 0) :=
  (C1_leaf_resize [0, 0, 0, 0, 3, 0, 0, 0, 10, 20, 30, 40] 1
    (by decide) (by decide) (by decide)).1 (by decide)

/-! ## The `Data` buffer (`cryfs_utils::data::Data`)

Modelled from the spec: `data.rs` is not among the sources; §4.1 describes
it as a byte buffer that tracks `available_prefix_bytes` /
`available_suffix_bytes` reserves inside an enclosing allocation, with the
invariant that the allocation length equals `prefix + len + suffix`. We
model it as a window `[start, stop)` into an allocation. -/

structure Data where
  alloc : List Nat
  start : Nat
  stop : Nat
deriving DecidableEq

namespace Data

/-- Well-formedness: the window lies inside the allocation. -/
def wf (d : Data) : Prop := d.start ≤ d.stop ∧ d.stop ≤ d.alloc.length

instance (d : Data) : Decidable d.wf := by unfold wf; infer_instance

/-- `Data::len`: length of the visible region. -/
def len (d : Data) : Nat := d.stop - d.start

/-- The visible bytes of the buffer (`as_ref()`). -/
def bytes (d : Data) : List Nat := (d.alloc.drop d.start).take (d.stop - d.start)

/-- `Data::available_prefix_bytes`. -/
def availablePrefixBytes (d : Data) : Nat := d.start

/-- `Data::available_suffix_bytes`. -/
def availableSuffixBytes (d : Data) : Nat := d.alloc.length - d.stop

/-- Modelled from the spec: `Data::shrink_to_subregion(a..b)` restricts the
visible region to indices `[a, b)` of the current one, growing the
reserves. -/
def shrink_to_subregion (d : Data) (a b : Nat) : Data :=
  ⟨d.alloc, d.start + a, d.start + b⟩

/-- Modelled from the spec: `Data::grow_region_fail_if_reallocation_necessary`
re-expands the visible region into the reserves; it fails (and performs no
reallocation) when a reserve is too small. -/
def grow_region_fail_if_reallocation_necessary (d : Data) (front back : Nat) :
    Option Data :=
  if front ≤ d.start ∧ d.stop + back ≤ d.alloc.length then
    some ⟨d.alloc, d.start - front, d.stop + back⟩
  else none

theorem bytes_length (d : Data) (h : d.wf) : d.bytes.length = d.len := by
  obtain ⟨h1, h2⟩ := h
  simp [bytes, len, List.length_take, List.length_drop]
  omega

end Data

/-! ## C2: leaf serialization (`serialize_leaf_node_optimized`) -/

/-- `serialize_leaf_node_optimized(data, num_bytes, layout)`: asserts the
payload length equals `max_bytes_per_leaf`, `num_bytes ≤ max_bytes_per_leaf`
and at least `HEADER_SIZE` prefix reserve bytes; grows the buffer forward by
the header size and writes `format_version = 0`, `unused = 0`, `depth = 0`,
`size = num_bytes` into the first 8 bytes. `none` = assertion/expect
failure. -/
def serialize_leaf_node_optimized (data : Data) (num_bytes : Nat)
    (layout : NodeLayout) : Option Data :=
  if data.len = layout.max_bytes_per_leaf ∧ num_bytes ≤ layout.max_bytes_per_leaf ∧
      HEADER_SIZE ≤ data.availablePrefixBytes then
    (data.grow_region_fail_if_reallocation_necessary HEADER_SIZE 0).map
      (fun grown =>
        ⟨listWriteAt grown.alloc grown.start ([0, 0, 0, 0] ++ u32le num_bytes),
          grown.start, grown.stop⟩)
  else none

/-! ## C3: leaf parsing (`DataLeafNode::new`) -/

/-- Outcome of `DataLeafNode::new`: a constructed leaf, an `anyhow` error
(`ensure!`), or a panic (`assert!`). -/
inductive LeafParseResult where
  | ok (block : List Nat)
  | err
  | panic
deriving DecidableEq

/-- `DataLeafNode::new(block, layout)`: `ensure!` format version (error),
`assert_eq!` depth 0 (panic), `assert!` the block is longer than the header
(panic), `ensure!` `size ≤ max_bytes_per_leaf` (error). -/
def DataLeafNode_new (block : List Nat) (layout : NodeLayout) : LeafParseResult :=
  if readU16BE block 0 ≠ FORMAT_VERSION_HEADER then .err
  else if depthField block ≠ 0 then .panic
  else if ¬ HEADER_SIZE < block.length then .panic
  else if ¬ leafSizeField block ≤ layout.max_bytes_per_leaf then .err
  else .ok block

/-- **C2.** For every valid layout, payload `p` of length
`max_bytes_per_leaf` with at least `HEADER_SIZE` prefix reserve bytes, and
`s ≤ max_bytes_per_leaf`: serialization succeeds and the resulting block's
header reads `format_version = 0`, `unused = 0`, `depth = 0`, `size = s`,
its data region equals `p`'s bytes, and parsing it back with
`DataLeafNode::new` yields a leaf with `num_bytes() = s` and `data()`
equal to the first `s` payload bytes. -/
theorem C2_serialize_roundtrip (layout : NodeLayout) (p : Data) (s : Nat)
    (hlay : layout.wf) (hwf : p.wf) (hplen : p.len = layout.max_bytes_per_leaf)
    (hpre : HEADER_SIZE ≤ p.availablePrefixBytes)
    (hs : s ≤ layout.max_bytes_per_leaf) (hs32 : s < 4294967296) :
    ∃ out, serialize_leaf_node_optimized p s layout = some out ∧
      readU16BE out.bytes 0 = FORMAT_VERSION_HEADER ∧
      byteAt out.bytes 2 = 0 ∧
      depthField out.bytes = 0 ∧
      leafSizeField out.bytes = s ∧
      dataRegion out.bytes = p.bytes ∧
      DataLeafNode_new out.bytes layout = .ok out.bytes ∧
      leafNumBytes out.bytes = s ∧
      leafData out.bytes = p.bytes.take s := by
  obtain ⟨h1, h2⟩ := hwf
  have hpre' : 8 ≤ p.start := hpre
  have hlay' : 8 < layout.block_size_bytes := hlay
  have hmax : layout.max_bytes_per_leaf = layout.block_size_bytes - 8 := rfl
  have hplen' : p.stop - p.start = layout.block_size_bytes - 8 := by
    have := hplen
    simp only [Data.len, hmax] at this
    exact this
  have hhdr8len : ∀ t : Nat, ([0, 0, 0, 0] ++ u32le t).length = 8 := fun _ => rfl
  set out : Data :=
    ⟨listWriteAt p.alloc (p.start - 8) ([0, 0, 0, 0] ++ u32le s),
      p.start - 8, p.stop⟩ with hout
  have hser : serialize_leaf_node_optimized p s layout = some out := by
    unfold serialize_leaf_node_optimized
    rw [if_pos ⟨hplen, hs, hpre⟩]
    unfold Data.grow_region_fail_if_reallocation_necessary
    rw [if_pos ⟨hpre, by omega⟩]
    rfl
  have hbytes : out.bytes = ([0, 0, 0, 0] ++ u32le s) ++ p.bytes := by
    show (out.alloc.drop (p.start - 8)).take (p.stop - (p.start - 8)) = _
    have halloc : out.alloc =
        p.alloc.take (p.start - 8) ++
          (([0, 0, 0, 0] ++ u32le s) ++ p.alloc.drop p.start) := by
      show listWriteAt p.alloc (p.start - 8) ([0, 0, 0, 0] ++ u32le s) = _
      unfold listWriteAt
      rw [List.append_assoc]
      have hidx : p.start - 8 + ([0, 0, 0, 0] ++ u32le s).length = p.start := by
        rw [hhdr8len]
        omega
      rw [hidx]
    rw [halloc]
    have htklen : (p.alloc.take (p.start - 8)).length = p.start - 8 := by
      rw [List.length_take]
      omega
    rw [List.drop_left' htklen]
    have hsz : p.stop - (p.start - 8) =
        ([0, 0, 0, 0] ++ u32le s).length + (p.stop - p.start) := by
      rw [hhdr8len]
      omega
    rw [hsz, List.take_append]
    rfl
  have hbytes' : out.bytes = [0, 0, 0, 0] ++ (u32le s ++ p.bytes) := by
    rw [hbytes, List.append_assoc]
  have hpblen : p.bytes.length = layout.block_size_bytes - 8 := by
    rw [Data.bytes_length p ⟨h1, h2⟩]
    simpa [Data.len] using hplen'
  have hfv : readU16BE out.bytes 0 = 0 := by
    rw [hbytes']
    simp [readU16BE, byteAt]
  have hunused : byteAt out.bytes 2 = 0 := by
    rw [hbytes']
    simp [byteAt]
  have hdepth : depthField out.bytes = 0 := by
    unfold depthField
    rw [hbytes']
    simp [byteAt]
  have hsize : leafSizeField out.bytes = s := by
    unfold leafSizeField
    rw [hbytes']
    exact readU32LE_concat _ _ _ rfl hs32
  have hdata : dataRegion out.bytes = p.bytes := by
    unfold dataRegion
    rw [hbytes]
    show List.drop 8 _ = _
    exact List.drop_left' (hhdr8len s)
  have hoblen : HEADER_SIZE < out.bytes.length := by
    rw [hbytes, List.length_append, hhdr8len, hpblen]
    show 8 < 8 + (layout.block_size_bytes - 8)
    omega
  have hnew : DataLeafNode_new out.bytes layout = .ok out.bytes := by
    unfold DataLeafNode_new
    rw [if_neg (by rw [hfv]; simp [FORMAT_VERSION_HEADER]),
      if_neg (by rw [hdepth]; simp),
      if_neg (by simp [hoblen]),
      if_neg (by rw [hsize]; simp [hs])]
  refine ⟨out, hser, hfv, hunused, hdepth, hsize, hdata, hnew, hsize, ?_⟩
  unfold leafData
  rw [hdata, hsize]

/-- Witness for C2: a 9-byte block layout, payload of one byte `55` behind
an 8-byte reserve, serialized with `s = 1`. -/
theorem C2_serialize_roundtrip_witness :
    ∃ out,
      serialize_leaf_node_optimized ⟨[9, 9, 9, 9, 9, 9, 9, 9, 55], 8, 9⟩ 1 ⟨9⟩ =
        some out ∧
      readU16BE out.bytes 0 = FORMAT_VERSION_HEADER ∧
      byteAt out.bytes 2 = 0 ∧
      depthField out.bytes = 0 ∧
      leafSizeField out.bytes = 1 ∧
      dataRegion out.bytes = Data.bytes ⟨[9, 9, 9, 9, 9, 9, 9, 9, 55], 8, 9⟩ ∧
      DataLeafNode_new out.bytes ⟨9⟩ = .ok out.bytes ∧
      leafNumBytes out.bytes = 1 ∧
      leafData out.bytes = (Data.bytes ⟨[9, 9, 9, 9, 9, 9, 9, 9, 55], 8, 9⟩).take 1 :=
  C2_serialize_roundtrip ⟨9⟩ ⟨[9, 9, 9, 9, 9, 9, 9, 9, 55], 8, 9⟩ 1
    (by decide) (by decide) (by decide) (by decide) (by decide) (by decide)

/-- **C3 counterexample.** The claim "DataLeafNode::new returns an error —
not a node and not a crash — exactly when format_version ≠
FORMAT_VERSION_HEADER, or depth ≠ 0, or size > max_bytes_per_leaf" fails
at the 9-byte block `[0, 0, 0, 1, 0, 0, 0, 0, 0]` (valid format version,
depth 1): the header is invalid for a leaf, yet `new` panics
(`assert_eq!` on depth) instead of returning an error. -/
theorem C3_counterexample :
    ¬ ((DataLeafNode_new [0, 0, 0, 1, 0, 0, 0, 0, 0] ⟨9⟩ = LeafParseResult.err) ↔
      (readU16BE [0, 0, 0, 1, 0, 0, 0, 0, 0] 0 ≠ FORMAT_VERSION_HEADER ∨
        depthField [0, 0, 0, 1, 0, 0, 0, 0, 0] ≠ 0 ∨
        NodeLayout.max_bytes_per_leaf ⟨9⟩ <
          leafSizeField [0, 0, 0, 1, 0, 0, 0, 0, 0])) := by
  decide

/-- **C3 (amended).** For every raw block strictly longer than the header:
among blocks with `depth = 0`, `DataLeafNode::new` returns an error exactly
when `format_version ≠ FORMAT_VERSION_HEADER` or
`size > max_bytes_per_leaf`, and returns the leaf when both checks pass;
a block with `depth ≠ 0` (and a valid format version) triggers an
assertion (panic), not an error return. -/
theorem C3_leaf_parse (block : List Nat) (layout : NodeLayout)
    (hlen : HEADER_SIZE < block.length) :
    (depthField block = 0 →
      ((DataLeafNode_new block layout = .err ↔
        (readU16BE block 0 ≠ FORMAT_VERSION_HEADER ∨
          layout.max_bytes_per_leaf < leafSizeField block)) ∧
       (readU16BE block 0 = FORMAT_VERSION_HEADER →
        leafSizeField block ≤ layout.max_bytes_per_leaf →
        DataLeafNode_new block layout = .ok block))) ∧
    (depthField block ≠ 0 → readU16BE block 0 = FORMAT_VERSION_HEADER →
      DataLeafNode_new block layout = .panic) := by
  unfold DataLeafNode_new
  split_ifs <;> simp_all

/-- Witness for C3 at a concrete valid leaf block. -/
theorem C3_leaf_parse_witness :
    (depthField [0, 0, 0, 0, 1, 0, 0, 0, 7] = 0 →
      ((DataLeafNode_new [0, 0, 0, 0, 1, 0, 0, 0, 7] ⟨9⟩ = .err ↔
        (readU16BE [0, 0, 0, 0, 1, 0, 0, 0, 7] 0 ≠ FORMAT_VERSION_HEADER ∨
          NodeLayout.max_bytes_per_leaf ⟨9⟩ <
            leafSizeField [0, 0, 0, 0, 1, 0, 0, 0, 7])) ∧
       (readU16BE [0, 0, 0, 0, 1, 0, 0, 0, 7] 0 = FORMAT_VERSION_HEADER →
        leafSizeField [0, 0, 0, 0, 1, 0, 0, 0, 7] ≤
          NodeLayout.max_bytes_per_leaf ⟨9⟩ →
        DataLeafNode_new [0, 0, 0, 0, 1, 0, 0, 0, 7] ⟨9⟩ =
          .ok [0, 0, 0, 0, 1, 0, 0, 0, 7]))) ∧
    (depthField [0, 0, 0, 0, 1, 0, 0, 0, 7] ≠ 0 →
      readU16BE [0, 0, 0, 0, 1, 0, 0, 0, 7] 0 = FORMAT_VERSION_HEADER →
      DataLeafNode_new [0, 0, 0, 0, 1, 0, 0, 0, 7] ⟨9⟩ = .panic) :=
  C3_leaf_parse [0, 0, 0, 0, 1, 0, 0, 0, 7] ⟨9⟩ (by decide)

/-! ## C6/C7: `GrowableData` (`growable_data.rs`)

The `typenum` parameters `PrefixBytes`/`SuffixBytes` are value-level fields
here; the compile-time `Sub` bounds of `grow_region` become hypotheses. -/

structure GrowableData where
  prefixBytes : Nat
  suffixBytes : Nat
  data : Data
deriving DecidableEq

namespace GrowableData

/-- `GrowableData::_check_invariant`: the underlying buffer has at least the
type-level reserves. -/
def checkInvariant (g : GrowableData) : Prop :=
  g.prefixBytes ≤ g.data.availablePrefixBytes ∧
    g.suffixBytes ≤ g.data.availableSuffixBytes

instance (g : GrowableData) : Decidable g.checkInvariant := by
  unfold checkInvariant; infer_instance

/-- `GrowableData::len`. -/
def len (g : GrowableData) : Nat := g.data.len

/-- `GrowableData::into_subregion::<A, B>`: asserts
`A + B ≤ len` (`none` = assertion failure), shrinks the visible region to
`[A, len − B)` and increases the reserves; `_check_invariant` afterwards. -/
def into_subregion (g : GrowableData) (A B : Nat) : Option GrowableData :=
  if A + B ≤ g.data.len then
    let r : GrowableData :=
      ⟨g.prefixBytes + A, g.suffixBytes + B,
        g.data.shrink_to_subregion A (g.data.len - B)⟩
    if r.checkInvariant then some r else none
  else none

/-- `GrowableData::grow_region::<A, B>`: grows the visible region into the
reserves without reallocating (`none` = the `expect` on the underlying grow,
or the `_check_invariant` assertion). -/
def grow_region (g : GrowableData) (A B : Nat) : Option GrowableData :=
  (g.data.grow_region_fail_if_reallocation_necessary A B).bind (fun d =>
    let r : GrowableData := ⟨g.prefixBytes - A, g.suffixBytes - B, d⟩
    if r.checkInvariant then some r else none)

end GrowableData

/-- **C6.** For every `GrowableData` with visible length `len` and reserves
`(P, S)` and every `A`, `B` with `A + B ≤ len`: `into_subregion::<A, B>`
yields a buffer of length `len − A − B` whose visible bytes are bytes
`[A, len − B)` of the original and whose reserves are `(P + A, S + B)`;
when `A + B > len` it fails by assertion. -/
theorem C6_into_subregion (g : GrowableData) (A B : Nat)
    (hwf : g.data.wf) (hinv : g.checkInvariant) :
    (A + B ≤ g.data.len →
      ∃ r, g.into_subregion A B = some r ∧
        r.data.len = g.data.len - A - B ∧
        r.data.bytes = (g.data.bytes.drop A).take (g.data.len - A - B) ∧
        r.prefixBytes = g.prefixBytes + A ∧
        r.suffixBytes = g.suffixBytes + B) ∧
    (g.data.len < A + B → g.into_subregion A B = none) := by
  obtain ⟨P, S, alloc, start, stop⟩ := g
  obtain ⟨h1, h2⟩ := hwf
  obtain ⟨hp, hs⟩ := hinv
  simp only [Data.availablePrefixBytes, Data.availableSuffixBytes] at hp hs
  simp only [Data.len] at *
  constructor
  · intro hle
    refine ⟨⟨P + A, S + B, alloc, start + A, start + (stop - start - B)⟩, ?_, ?_, ?_, rfl, rfl⟩
    · unfold GrowableData.into_subregion
      rw [if_pos (by simpa [Data.len] using hle)]
      simp only [Data.shrink_to_subregion, Data.len]
      rw [if_pos (by
        constructor
        · show P + A ≤ start + A
          omega
        · show S + B ≤ alloc.length - (start + (stop - start - B))
          omega)]
    · show start + (stop - start - B) - (start + A) = stop - start - A - B
      omega
    · show (alloc.drop (start + A)).take (start + (stop - start - B) - (start + A)) =
        (((alloc.drop start).take (stop - start)).drop A).take (stop - start - A - B)
      rw [List.drop_take, List.drop_drop]
      rw [List.take_take]
      have e1 : start + (stop - start - B) - (start + A) = stop - start - A - B := by omega
      have e3 : min (stop - start - A - B) (stop - start - A) = stop - start - A - B := by
        omega
      rw [e1, e3]
  · intro hgt
    unfold GrowableData.into_subregion
    rw [if_neg (by simp only [Data.len]; omega)]

/-- Witness for C6: a buffer of 4 visible bytes inside a 6-byte allocation,
dropping 1 byte at the front and 1 at the back. -/
theorem C6_into_subregion_witness :
    (1 + 1 ≤ (⟨1, 0, ⟨[9, 1, 2, 3, 4, 9], 1, 5⟩⟩ : GrowableData).data.len →
      ∃ r, (⟨1, 0, ⟨[9, 1, 2, 3, 4, 9], 1, 5⟩⟩ : GrowableData).into_subregion 1 1 =
          some r ∧
        r.data.len = (⟨1, 0, ⟨[9, 1, 2, 3, 4, 9], 1, 5⟩⟩ : GrowableData).data.len - 1 - 1 ∧
        r.data.bytes =
          ((⟨1, 0, ⟨[9, 1, 2, 3, 4, 9], 1, 5⟩⟩ : GrowableData).data.bytes.drop 1).take
            ((⟨1, 0, ⟨[9, 1, 2, 3, 4, 9], 1, 5⟩⟩ : GrowableData).data.len - 1 - 1) ∧
        r.prefixBytes = 1 + 1 ∧
        r.suffixBytes = 0 + 1) ∧
    ((⟨1, 0, ⟨[9, 1, 2, 3, 4, 9], 1, 5⟩⟩ : GrowableData).data.len < 1 + 1 →
      (⟨1, 0, ⟨[9, 1, 2, 3, 4, 9], 1, 5⟩⟩ : GrowableData).into_subregion 1 1 = none) :=
  C6_into_subregion ⟨1, 0, ⟨[9, 1, 2, 3, 4, 9], 1, 5⟩⟩ 1 1 (by decide) (by decide)

/-- **C7 counterexample.** The claim quantifies only over `A ≤ P`, `B ≤ S`
("amounts not exceeding its prefix/suffix reserves") but asserts
`d.into_subregion::<A, B>().grow_region::<A, B>() = d`. For the buffer
with visible length 0, prefix reserve 1 (allocation `[5]`, window `[1,1)`)
and `A = 1, B = 0`, `into_subregion` fails its `A + B ≤ len` assertion, so
the shrink-then-regrow composite does not return the original buffer. -/
theorem C7_counterexample :
    1 ≤ (⟨1, 0, ⟨[5], 1, 1⟩⟩ : GrowableData).prefixBytes ∧
    0 ≤ (⟨1, 0, ⟨[5], 1, 1⟩⟩ : GrowableData).suffixBytes ∧
    Data.wf ⟨[5], 1, 1⟩ ∧
    GrowableData.checkInvariant ⟨1, 0, ⟨[5], 1, 1⟩⟩ ∧
    ((⟨1, 0, ⟨[5], 1, 1⟩⟩ : GrowableData).into_subregion 1 0).bind
      (fun x => x.grow_region 1 0) ≠ some ⟨1, 0, ⟨[5], 1, 1⟩⟩ := by
  decide

/-- **C7 (amended).** For every `GrowableData` (well-formed, invariant
holding) and `A ≤ P`, `B ≤ S`: `grow_region::<A, B>` succeeds without
changing the underlying allocation, decreasing the reserves to
`(P − A, S − B)` and growing the visible length by `A + B`, and the
allocation length equals `prefix + len + suffix` before and after; when
additionally `A + B ≤ len`, shrinking then regrowing is the identity:
`d.into_subregion::<A, B>().grow_region::<A, B>() = d`. -/
theorem C7_grow_region (g : GrowableData) (A B : Nat)
    (hwf : g.data.wf) (hinv : g.checkInvariant)
    (hA : A ≤ g.prefixBytes) (hB : B ≤ g.suffixBytes) :
    (∃ r, g.grow_region A B = some r ∧
      r.data.alloc = g.data.alloc ∧
      r.prefixBytes = g.prefixBytes - A ∧
      r.suffixBytes = g.suffixBytes - B ∧
      r.data.len = g.data.len + A + B ∧
      r.data.availablePrefixBytes + r.data.len + r.data.availableSuffixBytes =
        r.data.alloc.length) ∧
    (g.data.availablePrefixBytes + g.data.len + g.data.availableSuffixBytes =
      g.data.alloc.length) ∧
    (A + B ≤ g.data.len →
      (g.into_subregion A B).bind (fun x => x.grow_region A B) = some g) := by
  obtain ⟨P, S, alloc, start, stop⟩ := g
  obtain ⟨h1, h2⟩ := hwf
  obtain ⟨hp, hs⟩ := hinv
  simp only [Data.availablePrefixBytes, Data.availableSuffixBytes] at hp hs hA hB ⊢
  simp only [Data.len] at *
  refine ⟨⟨⟨P - A, S - B, alloc, start - A, stop + B⟩, ?_, rfl, rfl, rfl, ?_, ?_⟩, ?_, ?_⟩
  · unfold GrowableData.grow_region Data.grow_region_fail_if_reallocation_necessary
    rw [if_pos ⟨(show A ≤ start by omega), (show stop + B ≤ alloc.length by omega)⟩]
    simp only [Option.bind]
    rw [if_pos (by
      constructor
      · show P - A ≤ start - A
        omega
      · show S - B ≤ alloc.length - (stop + B)
        omega)]
  · show stop + B - (start - A) = stop - start + A + B
    omega
  · show start - A + (stop + B - (start - A)) + (alloc.length - (stop + B)) = alloc.length
    omega
  · omega
  · intro hle
    unfold GrowableData.into_subregion
    rw [if_pos (by simp only [Data.len]; omega)]
    simp only [Data.shrink_to_subregion, Data.len]
    rw [if_pos (by
      constructor
      · show P + A ≤ start + A
        omega
      · show S + B ≤ alloc.length - (start + (stop - start - B))
        omega)]
    simp only [Option.bind]
    unfold GrowableData.grow_region Data.grow_region_fail_if_reallocation_necessary
    rw [if_pos ⟨(show A ≤ start + A by omega),
      (show start + (stop - start - B) + B ≤ alloc.length by omega)⟩]
    simp only [Option.bind]
    rw [if_pos (by
      constructor
      · show P + A - A ≤ start + A - A
        omega
      · show S + B - B ≤ alloc.length - (start + (stop - start - B) + B)
        omega)]
    have e1 : P + A - A = P := by omega
    have e2 : S + B - B = S := by omega
    have e3 : start + A - A = start := by omega
    have e4 : start + (stop - start - B) + B = stop := by omega
    rw [e1, e2, e3, e4]

/-- Witness for C7: a buffer of 2 visible bytes with reserves `(1, 1)`
inside a 4-byte allocation, `A = B = 1`. -/
theorem C7_grow_region_witness :
    (∃ r, (⟨1, 1, ⟨[7, 8, 9, 6], 1, 3⟩⟩ : GrowableData).grow_region 1 1 = some r ∧
      r.data.alloc = [7, 8, 9, 6] ∧
      r.prefixBytes = 1 - 1 ∧
      r.suffixBytes = 1 - 1 ∧
      r.data.len = (⟨1, 1, ⟨[7, 8, 9, 6], 1, 3⟩⟩ : GrowableData).data.len + 1 + 1 ∧
      r.data.availablePrefixBytes + r.data.len + r.data.availableSuffixBytes =
        r.data.alloc.length) ∧
    ((⟨1, 1, ⟨[7, 8, 9, 6], 1, 3⟩⟩ : GrowableData).data.availablePrefixBytes +
        (⟨1, 1, ⟨[7, 8, 9, 6], 1, 3⟩⟩ : GrowableData).data.len +
        (⟨1, 1, ⟨[7, 8, 9, 6], 1, 3⟩⟩ : GrowableData).data.availableSuffixBytes =
      ([7, 8, 9, 6] : List Nat).length) ∧
    (1 + 1 ≤ (⟨1, 1, ⟨[7, 8, 9, 6], 1, 3⟩⟩ : GrowableData).data.len →
      ((⟨1, 1, ⟨[7, 8, 9, 6], 1, 3⟩⟩ : GrowableData).into_subregion 1 1).bind
          (fun x => x.grow_region 1 1) =
        some ⟨1, 1, ⟨[7, 8, 9, 6], 1, 3⟩⟩) :=
  C7_grow_region ⟨1, 1, ⟨[7, 8, 9, 6], 1, 3⟩⟩ 1 1
    (by decide) (by decide) (by decide) (by decide)

/-! ## C10: `NonZeroU64Ext::checked_add` (`num.rs`) -/

/-- `u64::MAX`. -/
def U64_MAX : Nat := 18446744073709551615

/-- `u64::checked_add`: `None` on overflow, otherwise the exact sum. -/
def u64_checked_add (a b : Nat) : Option Nat :=
  if a + b ≤ U64_MAX then some (a + b) else none

/-- `NonZeroU64Ext::checked_add(self, other)`: delegate to `u64::checked_add`
on `self.get()`; in the `Some` case wrap the sum with
`NonZeroU64::new_unchecked`. -/
def nonZeroU64_checked_add (x other : Nat) : Option Nat :=
  match u64_checked_add x other with
  | some result => some result
  | none => none

/-- **C10.** For every `NonZeroU64` `x` (i.e. `1 ≤ x < 2^64`) and `u64` `y`:
`checked_add` returns the exact sum when `x + y ≤ u64::MAX` and `None`
when it overflows; in the `Some` case the result is never zero, so the
unchecked `NonZeroU64` construction is safe. -/
theorem C10_checked_add (x y : Nat) (hx : 1 ≤ x) (hx64 : x ≤ U64_MAX)
    (hy : y ≤ U64_MAX) :
    (x + y ≤ U64_MAX →
      nonZeroU64_checked_add x y = some (x + y) ∧ x + y ≠ 0) ∧
    (U64_MAX < x + y → nonZeroU64_checked_add x y = none) := by
  constructor
  · intro hle
    refine ⟨?_, by omega⟩
    unfold nonZeroU64_checked_add u64_checked_add
    rw [if_pos hle]
  · intro hgt
    unfold nonZeroU64_checked_add u64_checked_add
    rw [if_neg (by omega)]

/-- Witness for C10 at `x = 3`, `y = 4`. -/
theorem C10_checked_add_witness :
    (3 + 4 ≤ U64_MAX → nonZeroU64_checked_add 3 4 = some (3 + 4) ∧ 3 + 4 ≠ 0) ∧
    (U64_MAX < 3 + 4 → nonZeroU64_checked_add 3 4 = none) :=
  C10_checked_add 3 4 (by decide) (by decide) (by decide)

/-! ## C8: outer encrypted config (`outer.rs`)

`binrw` little-endian layout: NUL-terminated header string, `u64`
KDF-parameter length, that many KDF bytes, then the encrypted body until
EOF. -/

/-- The ASCII bytes of `HEADER = "cryfs.config;1;scrypt"`. -/
def HEADER_STR_BYTES : List Nat :=
  [99, 114, 121, 102, 115, 46, 99, 111, 110, 102, 105, 103, 59, 49, 59,
    115, 99, 114, 121, 112, 116]

/-- Little-endian u64 encoding (8 bytes) of `len as u64`. -/
def u64le (n : Nat) : List Nat :=
  [n % 256, n / 256 % 256, n / 65536 % 256, n / 16777216 % 256,
    n / 4294967296 % 256, n / 1099511627776 % 256,
    n / 281474976710656 % 256, n / 72057594037927936 % 256]

/-- Little-endian u64 decoding of a byte list. -/
def decodeU64 (l : List Nat) : Nat := l.foldr (fun b acc => b + 256 * acc) 0

/-- `binrw`'s `NullString` read: bytes up to the first NUL, plus the rest;
`none` when the input ends before a NUL. -/
def readNullString : List Nat → Option (List Nat × List Nat)
  | [] => none
  | 0 :: rest => some ([], rest)
  | b :: rest =>
    (readNullString rest).map (fun p => (b :: p.1, p.2))

/-- `OuterConfig`: serialized KDF parameters and the encrypted inner
config. -/
structure OuterConfig where
  kdf_parameters_serialized : List Nat
  encrypted_inner_config : List Nat
deriving DecidableEq

/-- `OuterConfig::serialize`: NUL-terminated header, little-endian u64
KDF-parameter length, KDF parameter bytes, encrypted body. -/
def OuterConfig_serialize (c : OuterConfig) : List Nat :=
  HEADER_STR_BYTES ++ [0] ++ u64le c.kdf_parameters_serialized.length ++
    c.kdf_parameters_serialized ++ c.encrypted_inner_config

/-- `OuterConfig::deserialize`: parse the `binrw` layout (NUL-terminated
string, u64 count, counted bytes, rest until EOF), then `ensure!` the
header equals `HEADER`. `none` covers both `binrw` read errors and the
header mismatch error. -/
def OuterConfig_deserialize (input : List Nat) : Option OuterConfig :=
  match readNullString input with
  | none => none
  | some (hdr, rest) =>
    if hdr = HEADER_STR_BYTES then
      if 8 ≤ rest.length then
        if decodeU64 (rest.take 8) ≤ (rest.drop 8).length then
          some ⟨(rest.drop 8).take (decodeU64 (rest.take 8)),
            (rest.drop 8).drop (decodeU64 (rest.take 8))⟩
        else none
      else none
    else none

theorem decodeU64_u64le (n : Nat) (h : n < 18446744073709551616) :
    decodeU64 (u64le n) = n := by
  show n % 256 + 256 * (n / 256 % 256 + 256 * (n / 65536 % 256 +
    256 * (n / 16777216 % 256 + 256 * (n / 4294967296 % 256 +
    256 * (n / 1099511627776 % 256 + 256 * (n / 281474976710656 % 256 +
    256 * (n / 72057594037927936 % 256 + 256 * 0))))))) = n
  omega

theorem readNullString_concat (h rest : List Nat) (hz : 0 ∉ h) :
    readNullString (h ++ 0 :: rest) = some (h, rest) := by
  induction h with
  | nil => rfl
  | cons b t ih =>
    have hb : b ≠ 0 := fun hb0 => hz (hb0 ▸ List.mem_cons_self b t)
    have ht : 0 ∉ t := fun hm => hz (List.mem_cons_of_mem b hm)
    show readNullString (b :: (t ++ 0 :: rest)) = some (b :: t, rest)
    match b, hb with
    | Nat.succ k, _ =>
      show (readNullString (t ++ 0 :: rest)).map _ = _
      rw [ih ht]
      rfl

/-- **C10-unrelated helper**: length of the u64 encoding. -/
theorem u64le_length (n : Nat) : (u64le n).length = 8 := rfl

/-- **C8.** For every `OuterConfig`: `serialize` produces exactly the
NUL-terminated header `"cryfs.config;1;scrypt"`, the little-endian u64
KDF-parameter length, the KDF parameter bytes, then the encrypted body to
EOF; `deserialize` of that output returns the same KDF bytes and body, and
`deserialize` fails on every input whose leading NUL-terminated string
differs from the header. -/
theorem C8_outer_config (kdf body : List Nat)
    (hlen : kdf.length < 18446744073709551616) :
    OuterConfig_serialize ⟨kdf, body⟩ =
      HEADER_STR_BYTES ++ [0] ++ u64le kdf.length ++ kdf ++ body ∧
    OuterConfig_deserialize (OuterConfig_serialize ⟨kdf, body⟩) =
      some ⟨kdf, body⟩ ∧
    (∀ h rest, 0 ∉ h → h ≠ HEADER_STR_BYTES →
      OuterConfig_deserialize (h ++ 0 :: rest) = none) := by
  refine ⟨rfl, ?_, ?_⟩
  · have hshape : OuterConfig_serialize ⟨kdf, body⟩ =
        HEADER_STR_BYTES ++ 0 :: (u64le kdf.length ++ (kdf ++ body)) := by
      unfold OuterConfig_serialize
      simp only [List.append_assoc]
      rfl
    rw [hshape]
    unfold OuterConfig_deserialize
    rw [readNullString_concat _ _ (by decide)]
    have hrestlen : (u64le kdf.length ++ (kdf ++ body)).length =
        8 + (kdf ++ body).length := by
      rw [List.length_append, u64le_length]
    have htk : (u64le kdf.length ++ (kdf ++ body)).take 8 = u64le kdf.length :=
      List.take_left' (u64le_length _)
    have hdp : (u64le kdf.length ++ (kdf ++ body)).drop 8 = kdf ++ body :=
      List.drop_left' (u64le_length _)
    simp only [if_pos rfl]
    rw [if_pos (show (8 : Nat) ≤ (u64le kdf.length ++ (kdf ++ body)).length by
      rw [hrestlen]; omega)]
    rw [htk, hdp, decodeU64_u64le _ hlen]
    rw [if_pos (show kdf.length ≤ (kdf ++ body).length by
      rw [List.length_append]; omega)]
    rw [List.take_left, List.drop_left]
    simp
  · intro h rest hz hne
    unfold OuterConfig_deserialize
    rw [readNullString_concat _ _ hz]
    simp only [if_neg hne]

/-- Witness for C8 with two KDF bytes and a three-byte body. -/
theorem C8_outer_config_witness :
    OuterConfig_serialize ⟨[1, 2], [3, 4, 5]⟩ =
      HEADER_STR_BYTES ++ [0] ++ u64le ([1, 2] : List Nat).length ++
        [1, 2] ++ [3, 4, 5] ∧
    OuterConfig_deserialize (OuterConfig_serialize ⟨[1, 2], [3, 4, 5]⟩) =
      some ⟨[1, 2], [3, 4, 5]⟩ ∧
    (∀ h rest, 0 ∉ h → h ≠ HEADER_STR_BYTES →
      OuterConfig_deserialize (h ++ 0 :: rest) = none) :=
  C8_outer_config [1, 2] [3, 4, 5] (by decide)

/-! ## C4/C5: tree store (`store.rs`)

`store.rs` is in the sources; the `DataNodeStore` / `DataTree` layers it
delegates to are not, so they are modelled from the spec (§4.3, §4.4): the
node store maps block ids to nodes, `DataTree::remove` is a post-order
traversal removing every node, `try_create_new_leaf_node` returns `None`
when the id exists. Tree traversals carry a fuel argument (trees are
finite, `MAX_DEPTH = 10`). -/

abbrev BlockId := Nat

/-- A stored node: a leaf with its live payload, or an inner node with its
depth and child ids. -/
inductive TNode where
  | leaf (data : List Nat)
  | inner (depth : Nat) (children : List BlockId)
deriving DecidableEq

/-- The node store contents: an association list from block id to node. -/
abbrev NodeStoreMap := List (BlockId × TNode)

/-- `DataNodeStore::load(id)` (block-store lookup). -/
def lookupNode : NodeStoreMap → BlockId → Option TNode
  | [], _ => none
  | (k, n) :: t, id => if k = id then some n else lookupNode t id

/-- `DataNodeStore::remove(id)` (block-store remove). -/
def removeNode : NodeStoreMap → BlockId → NodeStoreMap
  | [], _ => []
  | (k, n) :: t, id => if k = id then removeNode t id else (k, n) :: removeNode t id

/-- Remove every block whose id lies in `X`. -/
def removeAll : NodeStoreMap → List BlockId → NodeStoreMap
  | [], _ => []
  | (k, n) :: t, X => if k ∈ X then removeAll t X else (k, n) :: removeAll t X

/-- `DataNodeStore::num_nodes` (block-store `num_blocks`). -/
def numNodes (s : NodeStoreMap) : Nat := s.length

/-- The ids of all nodes of the tree rooted at `id`, post-order (children
left to right, then the root). `none` on a missing node or fuel
exhaustion. -/
def treeNodes : Nat → NodeStoreMap → BlockId → Option (List BlockId)
  | 0, _, _ => none
  | fuel + 1, s, id =>
    match lookupNode s id with
    | none => none
    | some (.leaf _) => some [id]
    | some (.inner _ cs) =>
      (cs.mapM (treeNodes fuel s)).map (fun lss => lss.flatten ++ [id])

/-- Modelled from the spec: `DataTree::remove` — post-order traversal
removing every node of the subtree. -/
def removeSubtree : Nat → NodeStoreMap → BlockId → Option NodeStoreMap
  | 0, _, _ => none
  | fuel + 1, s, id =>
    match lookupNode s id with
    | none => none
    | some (.leaf _) => some (removeNode s id)
    | some (.inner _ cs) =>
      (cs.foldlM (fun acc c => removeSubtree fuel acc c) s).map
        (fun s2 => removeNode s2 id)

/-- `RemoveResult`. -/
inductive RemoveResult where
  | SuccessfullyRemoved
  | NotRemovedBecauseItDoesntExist
deriving DecidableEq

/-- `DataTreeStore::remove_tree_by_id`: load the tree by its root id; if
absent return `NotRemovedBecauseItDoesntExist`, else `DataTree::remove` it
and return `SuccessfullyRemoved`. -/
def remove_tree_by_id (fuel : Nat) (s : NodeStoreMap) (root : BlockId) :
    Option (NodeStoreMap × RemoveResult) :=
  match lookupNode s root with
  | none => some (s, .NotRemovedBecauseItDoesntExist)
  | some _ =>
    (removeSubtree fuel s root).map (fun s2 => (s2, .SuccessfullyRemoved))

/-- Modelled from the spec: `DataNodeStore::try_create_new_leaf_node(id,
payload)` — `None` if the id already exists, otherwise store a new leaf
under that id. -/
def try_create_new_leaf_node (s : NodeStoreMap) (id : BlockId)
    (payload : List Nat) : NodeStoreMap × Option BlockId :=
  match lookupNode s id with
  | some _ => (s, none)
  | none => ((id, .leaf payload) :: s, some id)

/-- `DataTreeStore::try_create_tree(id)`: create a new tree as a single
empty leaf under the caller-chosen id; the returned tree's root id is the
new leaf's id. -/
def try_create_tree (s : NodeStoreMap) (id : BlockId) :
    NodeStoreMap × Option BlockId :=
  try_create_new_leaf_node s id []

/-- `DataTreeStore::load_tree(root_id)`: load the root node; the tree is
represented by its root node. -/
def load_tree (s : NodeStoreMap) (root : BlockId) : Option TNode :=
  lookupNode s root

/-- `DataTree::num_bytes` of a single-leaf tree: the leaf's payload size. -/
def TNode.numBytesInLeaf : TNode → Option Nat
  | .leaf d => some d.length
  | .inner _ _ => none

/-- **C5.** For every store and caller-chosen id: if no block with that id
exists, `try_create_tree(id)` returns a tree whose root id is `id` — a
single empty leaf with `num_bytes() = 0` — and a subsequent
`load_tree(id)` returns that tree; if a block with that id exists,
`try_create_tree(id)` returns `None` and the existing tree is unchanged. -/
theorem C5_try_create_tree (s : NodeStoreMap) (id : BlockId) :
    (lookupNode s id = none →
      try_create_tree s id = ((id, TNode.leaf []) :: s, some id) ∧
      load_tree ((id, TNode.leaf []) :: s) id = some (TNode.leaf []) ∧
      TNode.numBytesInLeaf (TNode.leaf []) = some 0) ∧
    (∀ n, lookupNode s id = some n →
      try_create_tree s id = (s, none) ∧ load_tree s id = some n) := by
  constructor
  · intro hnone
    refine ⟨?_, ?_, rfl⟩
    · unfold try_create_tree try_create_new_leaf_node
      rw [hnone]
    · unfold load_tree lookupNode
      rw [if_pos rfl]
  · intro n hsome
    refine ⟨?_, hsome⟩
    unfold try_create_tree try_create_new_leaf_node
    rw [hsome]

/-- Witness for C5: creating id 7 in a store holding only id 3, then
colliding with the existing id 3. -/
theorem C5_try_create_tree_witness :
    ((lookupNode [(3, TNode.leaf [1])] 7 = none →
      try_create_tree [(3, TNode.leaf [1])] 7 =
        ([(7, TNode.leaf []), (3, TNode.leaf [1])], some 7) ∧
      load_tree [(7, TNode.leaf []), (3, TNode.leaf [1])] 7 =
        some (TNode.leaf []) ∧
      TNode.numBytesInLeaf (TNode.leaf []) = some 0) ∧
    (∀ n, lookupNode [(3, TNode.leaf [1])] 7 = some n →
      try_create_tree [(3, TNode.leaf [1])] 7 = ([(3, TNode.leaf [1])], none) ∧
      load_tree [(3, TNode.leaf [1])] 7 = some n)) ∧
    ((lookupNode [(3, TNode.leaf [1])] 3 = none →
      try_create_tree [(3, TNode.leaf [1])] 3 =
        ([(3, TNode.leaf []), (3, TNode.leaf [1])], some 3) ∧
      load_tree [(3, TNode.leaf []), (3, TNode.leaf [1])] 3 =
        some (TNode.leaf []) ∧
      TNode.numBytesInLeaf (TNode.leaf []) = some 0) ∧
    (∀ n, lookupNode [(3, TNode.leaf [1])] 3 = some n →
      try_create_tree [(3, TNode.leaf [1])] 3 = ([(3, TNode.leaf [1])], none) ∧
      load_tree [(3, TNode.leaf [1])] 3 = some n)) :=
  ⟨C5_try_create_tree [(3, TNode.leaf [1])] 7,
    C5_try_create_tree [(3, TNode.leaf [1])] 3⟩

/-! ### Store-manipulation lemmas for C4 -/

theorem removeAll_nil (s : NodeStoreMap) : removeAll s [] = s := by
  induction s with
  | nil => rfl
  | cons p t ih =>
    obtain ⟨k, n⟩ := p
    simp only [removeAll]
    rw [if_neg (List.not_mem_nil k), ih]

theorem removeNode_eq_removeAll (s : NodeStoreMap) (id : BlockId) :
    removeNode s id = removeAll s [id] := by
  induction s with
  | nil => rfl
  | cons p t ih =>
    obtain ⟨k, n⟩ := p
    simp only [removeNode, removeAll]
    by_cases hk : k = id
    · rw [if_pos hk, if_pos (by simp [hk]), ih]
    · rw [if_neg hk, if_neg (by simp [hk]), ih]

theorem removeNode_removeAll (s : NodeStoreMap) (X : List BlockId) (id : BlockId) :
    removeNode (removeAll s X) id = removeAll s (id :: X) := by
  induction s with
  | nil => rfl
  | cons p t ih =>
    obtain ⟨k, n⟩ := p
    simp only [removeAll]
    by_cases hX : k ∈ X
    · rw [if_pos hX, if_pos (by simp [hX]), ih]
    · rw [if_neg hX]
      by_cases hk : k = id
      · rw [if_pos (by simp [hk])]
        simp only [removeNode]
        rw [if_pos hk, ih]
      · rw [if_neg (by simp [hk, hX])]
        simp only [removeNode]
        rw [if_neg hk, ih]

theorem removeAll_removeAll (s : NodeStoreMap) (X Y : List BlockId) :
    removeAll (removeAll s X) Y = removeAll s (X ++ Y) := by
  induction s with
  | nil => rfl
  | cons p t ih =>
    obtain ⟨k, n⟩ := p
    simp only [removeAll]
    by_cases hX : k ∈ X
    · rw [if_pos hX, if_pos (show k ∈ X ++ Y by simp [hX]), ih]
    · rw [if_neg hX]
      by_cases hY : k ∈ Y
      · rw [if_pos (show k ∈ X ++ Y by simp [hY])]
        simp only [removeAll]
        rw [if_pos hY, ih]
      · rw [if_neg (show ¬ k ∈ X ++ Y by simp [hX, hY])]
        simp only [removeAll]
        rw [if_neg hY, ih]

theorem lookup_removeAll (s : NodeStoreMap) (X : List BlockId) (id : BlockId)
    (h : id ∉ X) : lookupNode (removeAll s X) id = lookupNode s id := by
  induction s with
  | nil => rfl
  | cons p t ih =>
    obtain ⟨k, n⟩ := p
    simp only [removeAll]
    by_cases hX : k ∈ X
    · rw [if_pos hX]
      simp only [lookupNode]
      rw [if_neg (show ¬ k = id from fun hk => h (by rw [← hk]; exact hX)), ih]
    · rw [if_neg hX]
      simp only [lookupNode]
      by_cases hk : k = id
      · rw [if_pos hk, if_pos hk]
      · rw [if_neg hk, if_neg hk, ih]

theorem removeAll_congr (s : NodeStoreMap) (X Y : List BlockId)
    (h : ∀ p ∈ s, (p.1 ∈ X ↔ p.1 ∈ Y)) : removeAll s X = removeAll s Y := by
  induction s with
  | nil => rfl
  | cons p t ih =>
    obtain ⟨k, n⟩ := p
    have hk := h (k, n) (List.mem_cons_self _ _)
    have ht : ∀ p ∈ t, (p.1 ∈ X ↔ p.1 ∈ Y) :=
      fun p hp => h p (List.mem_cons_of_mem _ hp)
    unfold removeAll
    by_cases hX : k ∈ X
    · rw [if_pos hX, if_pos (hk.mp hX), ih ht]
    · rw [if_neg hX, if_neg (fun hY => hX (hk.mpr hY)), ih ht]

theorem treeNodes_self_mem (fuel : Nat) (s : NodeStoreMap) (id : BlockId)
    (ids : List BlockId) (h : treeNodes fuel s id = some ids) : id ∈ ids := by
  match fuel with
  | 0 => simp [treeNodes] at h
  | f + 1 =>
    unfold treeNodes at h
    cases hl : lookupNode s id with
    | none => rw [hl] at h; cases h
    | some n =>
      rw [hl] at h
      cases n with
      | leaf d =>
        obtain rfl : [id] = ids := by simpa using h
        simp
      | inner dep cs =>
        simp only [Option.map_eq_some'] at h
        obtain ⟨lss, -, rfl⟩ := h
        simp

theorem mapM_mem_inv (cs : List BlockId) (f : BlockId → Option (List BlockId))
    (lss : List (List BlockId)) (h : cs.mapM f = some lss) :
    ∀ l ∈ lss, ∃ c ∈ cs, f c = some l := by
  induction cs generalizing lss with
  | nil =>
    intro l hl
    simp only [List.mapM_nil] at h
    obtain rfl : [] = lss := by simpa using h
    simp at hl
  | cons c cs ih =>
    intro l hl
    rw [List.mapM_cons] at h
    cases hc : f c with
    | none => rw [hc] at h; simp at h
    | some b =>
      rw [hc] at h
      cases hm : cs.mapM f with
      | none => rw [hm] at h; simp at h
      | some bs =>
        rw [hm] at h
        obtain rfl : b :: bs = lss := by simpa using h
        rcases List.mem_cons.mp hl with rfl | hbs
        · exact ⟨c, List.mem_cons_self _ _, hc⟩
        · obtain ⟨c', hc', hfc'⟩ := ih bs hm l hbs
          exact ⟨c', List.mem_cons_of_mem _ hc', hfc'⟩

theorem lookup_some_of_treeNodes (fuel : Nat) :
    ∀ (s : NodeStoreMap) (id : BlockId) (ids : List BlockId),
      treeNodes fuel s id = some ids →
      ∀ i ∈ ids, ∃ n, lookupNode s i = some n := by
  induction fuel with
  | zero => intro s id ids h; simp [treeNodes] at h
  | succ f ih =>
    intro s id ids h i hi
    unfold treeNodes at h
    cases hl : lookupNode s id with
    | none => rw [hl] at h; cases h
    | some n =>
      rw [hl] at h
      cases n with
      | leaf d =>
        obtain rfl : [id] = ids := by simpa using h
        obtain rfl : i = id := by simpa using hi
        exact ⟨_, hl⟩
      | inner dep cs =>
        simp only [Option.map_eq_some'] at h
        obtain ⟨lss, hmap, rfl⟩ := h
        rcases List.mem_append.mp hi with hfl | hid
        · obtain ⟨l, hlmem, hil⟩ := List.mem_flatten.mp hfl
          obtain ⟨c, -, hc⟩ := mapM_mem_inv cs _ lss hmap l hlmem
          exact ih s c l hc i hil
        · obtain rfl : i = id := by simpa using hid
          exact ⟨_, hl⟩

theorem mapM_treeNodes_removeAll (f : Nat) (s : NodeStoreMap) (X : List BlockId)
    (ih : ∀ (s : NodeStoreMap) (id : BlockId) (ids X : List BlockId),
      treeNodes f s id = some ids → (∀ x ∈ ids, x ∉ X) →
      treeNodes f (removeAll s X) id = some ids) :
    ∀ (cs : List BlockId) (lss : List (List BlockId)),
      cs.mapM (treeNodes f s) = some lss →
      (∀ x ∈ lss.flatten, x ∉ X) →
      cs.mapM (treeNodes f (removeAll s X)) = some lss := by
  intro cs
  induction cs with
  | nil =>
    intro lss h hd
    simpa using h
  | cons c cs ihc =>
    intro lss h hd
    rw [List.mapM_cons] at h ⊢
    cases hc : treeNodes f s c with
    | none => rw [hc] at h; simp at h
    | some l =>
      rw [hc] at h
      cases hm : cs.mapM (treeNodes f s) with
      | none => rw [hm] at h; simp at h
      | some ls =>
        rw [hm] at h
        obtain rfl : l :: ls = lss := by simpa using h
        have hl' : treeNodes f (removeAll s X) c = some l :=
          ih s c l X hc (fun x hx => hd x (by
            rw [List.flatten_cons]
            exact List.mem_append_left _ hx))
        have hm' : cs.mapM (treeNodes f (removeAll s X)) = some ls :=
          ihc ls hm (fun x hx => hd x (by
            rw [List.flatten_cons]
            exact List.mem_append_right _ hx))
        rw [hl', hm']
        rfl

theorem treeNodes_removeAll (fuel : Nat) :
    ∀ (s : NodeStoreMap) (id : BlockId) (ids X : List BlockId),
      treeNodes fuel s id = some ids → (∀ x ∈ ids, x ∉ X) →
      treeNodes fuel (removeAll s X) id = some ids := by
  induction fuel with
  | zero => intro s id ids X h; simp [treeNodes] at h
  | succ f ih =>
    intro s id ids X h hdisj
    have hid : id ∈ ids := treeNodes_self_mem (f + 1) s id ids h
    have hlook : lookupNode (removeAll s X) id = lookupNode s id :=
      lookup_removeAll s X id (hdisj id hid)
    unfold treeNodes at h ⊢
    rw [hlook]
    cases hl : lookupNode s id with
    | none => rw [hl] at h; cases h
    | some n =>
      rw [hl] at h
      cases n with
      | leaf d => exact h
      | inner dep cs =>
        simp only [Option.map_eq_some'] at h
        obtain ⟨lss, hmap, rfl⟩ := h
        have hmap' : cs.mapM (treeNodes f (removeAll s X)) = some lss :=
          mapM_treeNodes_removeAll f s X ih cs lss hmap
            (fun x hx => hdisj x (List.mem_append_left _ hx))
        show (cs.mapM (treeNodes f (removeAll s X))).map
          (fun ls2 => ls2.flatten ++ [id]) = some (lss.flatten ++ [id])
        rw [hmap']
        rfl

theorem foldlM_removeSubtree (f : Nat) (s : NodeStoreMap)
    (ihT : ∀ (s : NodeStoreMap) (id : BlockId) (ids X : List BlockId),
      treeNodes f s id = some ids → (∀ x ∈ ids, x ∉ X) →
      treeNodes f (removeAll s X) id = some ids)
    (ihR : ∀ (s : NodeStoreMap) (id : BlockId) (ids : List BlockId),
      treeNodes f s id = some ids → ids.Nodup →
      removeSubtree f s id = some (removeAll s ids)) :
    ∀ (cs : List BlockId) (lss : List (List BlockId)) (X : List BlockId),
      cs.mapM (treeNodes f s) = some lss →
      (X ++ lss.flatten).Nodup →
      cs.foldlM (fun acc c => removeSubtree f acc c) (removeAll s X) =
        some (removeAll s (X ++ lss.flatten)) := by
  intro cs
  induction cs with
  | nil =>
    intro lss X h hnd
    rw [List.mapM_nil] at h
    obtain rfl : [] = lss := by simpa using h
    simp
  | cons c cs ihc =>
    intro lss X h hnd
    rw [List.mapM_cons] at h
    cases hc : treeNodes f s c with
    | none => rw [hc] at h; simp at h
    | some l =>
      rw [hc] at h
      cases hm : cs.mapM (treeNodes f s) with
      | none => rw [hm] at h; simp at h
      | some ls =>
        rw [hm] at h
        obtain rfl : l :: ls = lss := by simpa using h
        rw [List.flatten_cons, ← List.append_assoc] at hnd
        have hndX : ((X ++ l) ++ ls.flatten).Nodup := hnd
        have hXl := List.nodup_append.mp
          (show (X ++ (l ++ ls.flatten)).Nodup by rwa [List.append_assoc] at hndX)
        have hdisjXl : ∀ x ∈ l, x ∉ X := by
          intro x hx hxX
          exact (List.disjoint_left.mp hXl.2.2) hxX
            (List.mem_append_left _ hx)
        have hlnd : l.Nodup := (List.nodup_append.mp hXl.2.1).1
        have ht : treeNodes f (removeAll s X) c = some l := ihT s c l X hc hdisjXl
        have hr : removeSubtree f (removeAll s X) c =
            some (removeAll (removeAll s X) l) :=
          ihR (removeAll s X) c l ht hlnd
        rw [List.foldlM_cons, hr]
        show cs.foldlM (fun acc c => removeSubtree f acc c)
          (removeAll (removeAll s X) l) = _
        rw [removeAll_removeAll]
        have hrec := ihc ls (X ++ l) hm hndX
        rw [hrec, List.flatten_cons, ← List.append_assoc]

theorem removeSubtree_spec (fuel : Nat) :
    ∀ (s : NodeStoreMap) (id : BlockId) (ids : List BlockId),
      treeNodes fuel s id = some ids → ids.Nodup →
      removeSubtree fuel s id = some (removeAll s ids) := by
  induction fuel with
  | zero => intro s id ids h; simp [treeNodes] at h
  | succ f ih =>
    intro s id ids h hnd
    unfold treeNodes at h
    unfold removeSubtree
    cases hl : lookupNode s id with
    | none => rw [hl] at h; cases h
    | some n =>
      rw [hl] at h
      cases n with
      | leaf d =>
        obtain rfl : [id] = ids := by simpa using h
        rw [removeNode_eq_removeAll]
      | inner dep cs =>
        simp only [Option.map_eq_some'] at h
        obtain ⟨lss, hmap, rfl⟩ := h
        have hnd' : ([] ++ lss.flatten).Nodup := by
          simpa using (List.nodup_append.mp hnd).1
        have hfold := foldlM_removeSubtree f s (treeNodes_removeAll f) ih
          cs lss [] hmap hnd'
        rw [removeAll_nil] at hfold
        show (cs.foldlM (fun acc c => removeSubtree f acc c) s).map
          (fun s2 => removeNode s2 id) = _
        rw [hfold]
        show some (removeNode (removeAll s ([] ++ lss.flatten)) id) = _
        rw [List.nil_append, removeNode_removeAll]
        congr 1
        apply removeAll_congr
        intro p _
        simp [or_comm]

theorem lookup_mem_keys (s : NodeStoreMap) (i : BlockId) (m : TNode)
    (h : lookupNode s i = some m) : i ∈ s.map Prod.fst := by
  induction s with
  | nil => cases h
  | cons p t ih =>
    obtain ⟨k, n⟩ := p
    simp only [lookupNode] at h
    by_cases hk : k = i
    · simp [hk]
    · rw [if_neg hk] at h
      exact List.mem_cons_of_mem _ (ih h)

theorem removeAll_length (s : NodeStoreMap) (ids : List BlockId)
    (hkeys : (s.map Prod.fst).Nodup) (hnd : ids.Nodup)
    (hsub : ∀ i ∈ ids, i ∈ s.map Prod.fst) :
    (removeAll s ids).length = s.length - ids.length := by
  induction s generalizing ids with
  | nil =>
    obtain rfl : ids = [] :=
      List.eq_nil_iff_forall_not_mem.mpr (fun i hi => by simpa using hsub i hi)
    rfl
  | cons p t ih =>
    obtain ⟨k, n⟩ := p
    rw [List.map_cons, List.nodup_cons] at hkeys
    obtain ⟨hknot, hkeys'⟩ := hkeys
    by_cases hk : k ∈ ids
    · have hstep : removeAll ((k, n) :: t) ids = removeAll t ids := by
        simp only [removeAll]
        rw [if_pos hk]
      have hlen1 : 1 ≤ ids.length := List.length_pos.mpr (fun h0 => by
        rw [h0] at hk
        exact List.not_mem_nil k hk)
      have hnd' : (ids.erase k).Nodup := hnd.erase k
      have herlen : (ids.erase k).length = ids.length - 1 :=
        List.length_erase_of_mem hk
      have hsub' : ∀ i ∈ ids.erase k, i ∈ t.map Prod.fst := by
        intro i hi
        have hine := (List.Nodup.mem_erase_iff hnd).mp hi
        have := hsub i hine.2
        rw [List.map_cons] at this
        rcases List.mem_cons.mp this with h1 | h2
        · exact absurd h1 hine.1
        · exact h2
      have hcong : removeAll t ids = removeAll t (ids.erase k) := by
        apply removeAll_congr
        intro p hp
        have hpk : p.1 ≠ k := by
          intro he
          apply hknot
          rw [← he]
          have hmm := List.mem_map_of_mem Prod.fst hp
          exact hmm
        constructor
        · intro hpin
          exact (List.Nodup.mem_erase_iff hnd).mpr ⟨hpk, hpin⟩
        · intro hpin
          exact List.erase_subset _ _ hpin
      rw [hstep, hcong, ih (ids.erase k) hkeys' hnd' hsub', herlen]
      simp only [List.length_cons]
      omega
    · have hstep : removeAll ((k, n) :: t) ids = (k, n) :: removeAll t ids := by
        simp only [removeAll]
        rw [if_neg hk]
      have hsub' : ∀ i ∈ ids, i ∈ t.map Prod.fst := by
        intro i hi
        have := hsub i hi
        rw [List.map_cons] at this
        rcases List.mem_cons.mp this with h1 | h2
        · rw [h1] at hi
          exact absurd hi hk
        · exact h2
      have hle : ids.length ≤ t.length := by
        have hsp := List.subperm_of_subset hnd hsub'
        have := hsp.length_le
        rwa [List.length_map] at this
      rw [hstep]
      simp only [List.length_cons]
      rw [ih ids hkeys' hnd hsub']
      omega

/-- **C4.** For every store (with unique block ids) and every `root_id`:
`remove_tree_by_id` returns `NotRemovedBecauseItDoesntExist` exactly when
no node with `root_id` exists; when the tree rooted at `root_id` exists
(with pairwise-distinct node ids), it returns `SuccessfullyRemoved`, the
store's node count drops by that tree's node count, and every node outside
the tree is unchanged. -/
theorem C4_remove_tree_by_id (fuel : Nat) (s : NodeStoreMap) (root : BlockId)
    (hkeys : (s.map Prod.fst).Nodup) :
    (lookupNode s root = none →
      remove_tree_by_id fuel s root =
        some (s, RemoveResult.NotRemovedBecauseItDoesntExist)) ∧
    (∀ ids, treeNodes fuel s root = some ids → ids.Nodup →
      remove_tree_by_id fuel s root =
        some (removeAll s ids, RemoveResult.SuccessfullyRemoved) ∧
      numNodes (removeAll s ids) = numNodes s - ids.length ∧
      (∀ x, x ∉ ids → lookupNode (removeAll s ids) x = lookupNode s x)) := by
  constructor
  · intro hnone
    unfold remove_tree_by_id
    rw [hnone]
  · intro ids htn hnd
    obtain ⟨n, hn⟩ := lookup_some_of_treeNodes fuel s root ids htn root
      (treeNodes_self_mem fuel s root ids htn)
    have hrs := removeSubtree_spec fuel s root ids htn hnd
    refine ⟨?_, ?_, ?_⟩
    · unfold remove_tree_by_id
      rw [hn]
      show (removeSubtree fuel s root).map
        (fun s2 => (s2, RemoveResult.SuccessfullyRemoved)) = _
      rw [hrs]
      rfl
    · have hmem : ∀ i ∈ ids, i ∈ s.map Prod.fst := fun i hi => by
        obtain ⟨m, hm⟩ := lookup_some_of_treeNodes fuel s root ids htn i hi
        exact lookup_mem_keys s i m hm
      exact removeAll_length s ids hkeys hnd hmem
    · intro x hx
      exact lookup_removeAll s ids x hx

/-- Witness for C4: a two-leaf tree rooted at id 1 (inner node with
children 2 and 3) next to an unrelated leaf 9. -/
theorem C4_remove_tree_by_id_witness :
    (lookupNode [(1, TNode.inner 1 [2, 3]), (2, TNode.leaf [5]),
        (3, TNode.leaf [6]), (9, TNode.leaf [7])] 1 = none →
      remove_tree_by_id 2 [(1, TNode.inner 1 [2, 3]), (2, TNode.leaf [5]),
          (3, TNode.leaf [6]), (9, TNode.leaf [7])] 1 =
        some ([(1, TNode.inner 1 [2, 3]), (2, TNode.leaf [5]),
          (3, TNode.leaf [6]), (9, TNode.leaf [7])],
          RemoveResult.NotRemovedBecauseItDoesntExist)) ∧
    (∀ ids, treeNodes 2 [(1, TNode.inner 1 [2, 3]), (2, TNode.leaf [5]),
        (3, TNode.leaf [6]), (9, TNode.leaf [7])] 1 = some ids → ids.Nodup →
      remove_tree_by_id 2 [(1, TNode.inner 1 [2, 3]), (2, TNode.leaf [5]),
          (3, TNode.leaf [6]), (9, TNode.leaf [7])] 1 =
        some (removeAll [(1, TNode.inner 1 [2, 3]), (2, TNode.leaf [5]),
          (3, TNode.leaf [6]), (9, TNode.leaf [7])] ids,
          RemoveResult.SuccessfullyRemoved) ∧
      numNodes (removeAll [(1, TNode.inner 1 [2, 3]), (2, TNode.leaf [5]),
          (3, TNode.leaf [6]), (9, TNode.leaf [7])] ids) =
        numNodes [(1, TNode.inner 1 [2, 3]), (2, TNode.leaf [5]),
          (3, TNode.leaf [6]), (9, TNode.leaf [7])] - ids.length ∧
      (∀ x, x ∉ ids →
        lookupNode (removeAll [(1, TNode.inner 1 [2, 3]), (2, TNode.leaf [5]),
          (3, TNode.leaf [6]), (9, TNode.leaf [7])] ids) x =
        lookupNode [(1, TNode.inner 1 [2, 3]), (2, TNode.leaf [5]),
          (3, TNode.leaf [6]), (9, TNode.leaf [7])] x)) :=
  C4_remove_tree_by_id 2
    [(1, TNode.inner 1 [2, 3]), (2, TNode.leaf [5]),
      (3, TNode.leaf [6]), (9, TNode.leaf [7])] 1 (by decide)

/-! ## C9: `DataFixture` (`data_fixture.rs`)

The RNG is abstracted as `stream : Nat → Nat → Nat`, where `stream seed i`
is byte `i` of `SmallRng(seed)`'s output; `fill_bytes(n)` yields the first
`n` bytes of that per-seed stream (the code rounds the buffer up to a
multiple of 8 bytes precisely so that this prefix property holds for the
`rand` implementation, which fills in 64-bit words). All theorems are
proved for every such stream. -/

/-- `data_fixture.rs` `BLOCK_SIZE = 2 * 1024`. -/
def FIXTURE_BLOCK_SIZE : Nat := 2048

/-- `DataFixture::generate_block(block_index, in_block_offset, dest)`:
asserts `in_block_offset + dest.len() ≤ BLOCK_SIZE` (`none` = assertion
failure), fills `div_ceil(off + len, 8) * 8` bytes from
`SmallRng(seed + block_index)` and copies `block[off..off + len]`. -/
def generate_block (stream : Nat → Nat → Nat) (seed blockIndex inBlockOffset len : Nat) :
    Option (List Nat) :=
  if inBlockOffset + len ≤ FIXTURE_BLOCK_SIZE then
    some (((((List.range ((inBlockOffset + len + 7) / 8 * 8)).map
      (stream (seed + blockIndex)))).drop inBlockOffset).take len)
  else none

/-- The tail-slice sizes produced by `subslices`: `div_ceil(m, bs)` slices
of `min(bs, remaining)` bytes; the fuel is the number of slices. -/
def chunkSizesF (bs : Nat) : Nat → Nat → List Nat
  | 0, _ => []
  | k + 1, m => min bs m :: chunkSizesF bs k (m - bs)

/-- The tail-slice sizes for `m` remaining bytes. -/
def chunkSizes (bs m : Nat) : List Nat := chunkSizesF bs ((m + bs - 1) / bs) m

/-- The per-slice loop of `DataFixture::generate`: slice `r` is generated
by block `blockIndex + r`; the first slice starts at `inOff` within its
block, later slices at offset `0`. -/
def generateSlices (stream : Nat → Nat → Nat) (seed : Nat) :
    Nat → Nat → List Nat → Option (List Nat)
  | _, _, [] => some []
  | blockIndex, inOff, sz :: rest =>
    match generate_block stream seed blockIndex inOff sz with
    | none => none
    | some b =>
      match generateSlices stream seed (blockIndex + 1) 0 rest with
      | none => none
      | some b2 => some (b ++ b2)

/-- `DataFixture::generate(offset, dest)` for a destination of length `n`:
early return on `n = 0`, otherwise split the destination at block
boundaries (first slice of `min(BLOCK_SIZE − offset % BLOCK_SIZE, n)`
bytes) and generate each slice from its block's RNG. -/
def generate (stream : Nat → Nat → Nat) (seed offset n : Nat) : Option (List Nat) :=
  if n = 0 then some []
  else
    generateSlices stream seed (offset / FIXTURE_BLOCK_SIZE)
      (offset % FIXTURE_BLOCK_SIZE)
      (min (FIXTURE_BLOCK_SIZE - offset % FIXTURE_BLOCK_SIZE) n ::
        chunkSizes FIXTURE_BLOCK_SIZE
          (n - min (FIXTURE_BLOCK_SIZE - offset % FIXTURE_BLOCK_SIZE) n))

/-- `DataFixture::get(size)`: generate at offset 0. -/
def get (stream : Nat → Nat → Nat) (seed size : Nat) : Option (List Nat) :=
  generate stream seed 0 size

/-- Byte `p` of the single infinite stream determined by the seed: block
`p / BLOCK_SIZE`, in-block position `p % BLOCK_SIZE`. -/
def fixtureByte (stream : Nat → Nat → Nat) (seed p : Nat) : Nat :=
  stream (seed + p / FIXTURE_BLOCK_SIZE) (p % FIXTURE_BLOCK_SIZE)

theorem range_map_drop_take (f : Nat → Nat) (N a l : Nat) (h : a + l ≤ N) :
    (((List.range N).map f).drop a).take l =
      (List.range l).map (fun j => f (a + j)) := by
  apply List.ext_getElem
  · simp only [List.length_take, List.length_drop, List.length_map,
      List.length_range]
    omega
  · intro i h1 h2
    simp only [List.getElem_take, List.getElem_drop, List.getElem_map,
      List.getElem_range]

theorem generate_block_spec (stream : Nat → Nat → Nat)
    (seed i off len : Nat) (h : off + len ≤ FIXTURE_BLOCK_SIZE) :
    generate_block stream seed i off len =
      some ((List.range len).map (fun j => stream (seed + i) (off + j))) := by
  unfold generate_block
  rw [if_pos h, range_map_drop_take _ _ _ _ (by omega)]

theorem generateSlices_chunks (stream : Nat → Nat → Nat) (seed : Nat) :
    ∀ (k m blockIndex : Nat), (m + 2047) / 2048 = k →
      generateSlices stream seed blockIndex 0 (chunkSizesF 2048 k m) =
        some ((List.range m).map
          (fun j => stream (seed + blockIndex + j / 2048) (j % 2048))) := by
  intro k
  induction k with
  | zero =>
    intro m blockIndex hk
    obtain rfl : m = 0 := by omega
    rfl
  | succ k ih =>
    intro m blockIndex hk
    have hm1 : 1 ≤ m := by omega
    show generateSlices stream seed blockIndex 0
      (min 2048 m :: chunkSizesF 2048 k (m - 2048)) = _
    by_cases hsmall : m ≤ 2048
    · have hmin : min 2048 m = m := by omega
      obtain rfl : k = 0 := by omega
      rw [hmin]
      show (match generate_block stream seed blockIndex 0 m with
        | none => none
        | some b =>
          match generateSlices stream seed (blockIndex + 1) 0
              (chunkSizesF 2048 0 (m - 2048)) with
          | none => none
          | some b2 => some (b ++ b2)) = _
      rw [generate_block_spec stream seed blockIndex 0 m
        (by show 0 + m ≤ 2048; omega)]
      show some ((List.range m).map (fun j => stream (seed + blockIndex) (0 + j)) ++ []) = _
      rw [List.append_nil]
      refine congrArg some ?_
      apply List.map_congr_left
      intro j hj
      have hjm : j < m := List.mem_range.mp hj
      have e1 : j / 2048 = 0 := by omega
      have e2 : j % 2048 = j := by omega
      rw [e1, e2]
      congr 1
      omega
    · have hmin : min 2048 m = 2048 := by omega
      have hk' : (m - 2048 + 2047) / 2048 = k := by omega
      rw [hmin]
      show (match generate_block stream seed blockIndex 0 2048 with
        | none => none
        | some b =>
          match generateSlices stream seed (blockIndex + 1) 0
              (chunkSizesF 2048 k (m - 2048)) with
          | none => none
          | some b2 => some (b ++ b2)) = _
      rw [generate_block_spec stream seed blockIndex 0 2048
        (by show 0 + 2048 ≤ 2048; omega)]
      rw [ih (m - 2048) (blockIndex + 1) hk']
      show some ((List.range 2048).map (fun j => stream (seed + blockIndex) (0 + j)) ++
        (List.range (m - 2048)).map
          (fun j => stream (seed + (blockIndex + 1) + j / 2048) (j % 2048))) = _
      refine congrArg some ?_
      have hsplit : m = 2048 + (m - 2048) := by omega
      conv_rhs => rw [hsplit]
      rw [List.range_add, List.map_append, List.map_map]
      refine congrArg₂ (fun x y => x ++ y) ?_ ?_
      · apply List.map_congr_left
        intro j hj
        have hjm : j < 2048 := List.mem_range.mp hj
        have e1 : j / 2048 = 0 := by omega
        have e2 : j % 2048 = j := by omega
        rw [e1, e2]
        congr 1
        omega
      · apply List.map_congr_left
        intro j hj
        show stream (seed + (blockIndex + 1) + j / 2048) (j % 2048) =
          stream (seed + blockIndex + (2048 + j) / 2048) ((2048 + j) % 2048)
        have e1 : (2048 + j) / 2048 = 1 + j / 2048 := by omega
        have e2 : (2048 + j) % 2048 = j % 2048 := by omega
        rw [e1, e2]
        congr 1
        omega

theorem generate_spec (stream : Nat → Nat → Nat) (seed o n : Nat) :
    generate stream seed o n =
      some ((List.range n).map (fun j => fixtureByte stream seed (o + j))) := by
  by_cases hn : n = 0
  · subst hn
    rfl
  · unfold generate
    rw [if_neg hn]
    have hob : o % 2048 < 2048 := Nat.mod_lt o (by omega)
    show generateSlices stream seed (o / 2048) (o % 2048)
      (min (2048 - o % 2048) n :: chunkSizes 2048 (n - min (2048 - o % 2048) n)) = _
    show (match generate_block stream seed (o / 2048) (o % 2048)
        (min (2048 - o % 2048) n) with
      | none => none
      | some b =>
        match generateSlices stream seed (o / 2048 + 1) 0
            (chunkSizes 2048 (n - min (2048 - o % 2048) n)) with
        | none => none
        | some b2 => some (b ++ b2)) = _
    rw [generate_block_spec stream seed (o / 2048) (o % 2048)
      (min (2048 - o % 2048) n)
      (show o % 2048 + min (2048 - o % 2048) n ≤ 2048 by omega)]
    unfold chunkSizes
    rw [generateSlices_chunks stream seed
      ((n - min (2048 - o % 2048) n + 2048 - 1) / 2048)
      (n - min (2048 - o % 2048) n) (o / 2048 + 1) (by omega)]
    show some ((List.range (min (2048 - o % 2048) n)).map
        (fun j => stream (seed + o / 2048) (o % 2048 + j)) ++
      (List.range (n - min (2048 - o % 2048) n)).map
        (fun j => stream (seed + (o / 2048 + 1) + j / 2048) (j % 2048))) = _
    congr 1
    have hsplit : n = min (2048 - o % 2048) n + (n - min (2048 - o % 2048) n) := by
      omega
    conv_rhs => rw [hsplit]
    rw [List.range_add, List.map_append, List.map_map]
    congr 1
    · apply List.map_congr_left
      intro j hj
      have hjm : j < min (2048 - o % 2048) n := List.mem_range.mp hj
      unfold fixtureByte
      show stream (seed + o / 2048) (o % 2048 + j) =
        stream (seed + (o + j) / 2048) ((o + j) % 2048)
      have e1 : (o + j) / 2048 = o / 2048 := by omega
      have e2 : (o + j) % 2048 = o % 2048 + j := by omega
      rw [e1, e2]
    · apply List.map_congr_left
      intro j hj
      have hcase : min (2048 - o % 2048) n = 2048 - o % 2048 ∨
          n - min (2048 - o % 2048) n = 0 := by omega
      have hjm : j < n - min (2048 - o % 2048) n := List.mem_range.mp hj
      rcases hcase with hfull | hempty
      · unfold fixtureByte
        show stream (seed + (o / 2048 + 1) + j / 2048) (j % 2048) =
          stream (seed + (o + (min (2048 - o % 2048) n + j)) / 2048)
            ((o + (min (2048 - o % 2048) n + j)) % 2048)
        rw [hfull]
        have e1 : (o + (2048 - o % 2048 + j)) / 2048 = o / 2048 + 1 + j / 2048 := by
          omega
        have e2 : (o + (2048 - o % 2048 + j)) % 2048 = j % 2048 := by omega
        rw [e1, e2]
        congr 1
        omega
      · omega

/-- **C9.** `DataFixture::generate` is a pure function of `(seed, offset,
length)` and is consistent across partitions: for every RNG stream, seed,
offset `o` and length `n`, `generate(o, dest[n])` fills `dest` with
exactly bytes `[o, o + n)` of the single infinite byte stream determined
by the seed; hence generating `[o, o + n1 + n2)` in two consecutive
sections yields the same bytes as one call, and `get(n)` equals
`generate(0, buf[n])`. -/
theorem C9_data_fixture (stream : Nat → Nat → Nat) (seed o n n2 : Nat) :
    generate stream seed o n =
      some ((List.range n).map (fun j => fixtureByte stream seed (o + j))) ∧
    (generate stream seed o n).bind (fun d1 =>
        (generate stream seed (o + n) n2).map (fun d2 => d1 ++ d2)) =
      generate stream seed o (n + n2) ∧
    get stream seed n = generate stream seed 0 n := by
  refine ⟨generate_spec stream seed o n, ?_, rfl⟩
  rw [generate_spec stream seed o n, generate_spec stream seed (o + n) n2,
    generate_spec stream seed o (n + n2)]
  show some ((List.range n).map (fun j => fixtureByte stream seed (o + j)) ++
    (List.range n2).map (fun j => fixtureByte stream seed (o + n + j))) = _
  congr 1
  rw [List.range_add, List.map_append, List.map_map]
  congr 1
  apply List.map_congr_left
  intro j _
  show fixtureByte stream seed (o + n + j) = fixtureByte stream seed (o + (n + j))
  congr 1
  omega

end Cryfs
